import Mathlib

/-!
Shallow embedding of the expense tracker's in-memory data engine
(`src/expense_tracker.py`, class `ExpenseTracker`).

Modelling conventions:
* calendar dates are integers ordered like ISO dates (e.g. `20250610`);
* monetary amounts are exact rationals (`ℚ`); the source's float arithmetic
  is idealised as exact rational arithmetic;
* pandas `.round(2)` is embedded as `round2`, round-half-to-even to a
  multiple of `1/100` (numpy's rounding rule);
* the pandas DataFrame is a `List Expense` in row order;
* `groupby('Category')` enumerates the distinct categories in ascending
  order (pandas' default `sort=True`), embedded by `groupKeys`;
* `sort_values(..., ascending=False)` uses pandas' default
  `kind='quicksort'`, which makes no promise about the relative order of
  equal keys; `sortDescBy` is one deterministic refinement of it (a
  descending insertion sort), and the theorems below use only
  order-invariant consequences of the sort (sums, lengths, membership),
  never the tie order.
-/

section TrackerModel

attribute [local semireducible] Rat.mul Rat.inv Rat.add Rat.sub

/-- One expense record: a row of the DataFrame
(`Date`, `Category`, `Amount`, `Description`). -/
structure Expense where
  date : ℤ
  category : String
  amount : ℚ
  description : String
deriving DecidableEq, Repr

/-- Round a rational to the nearest integer, halves to even
(numpy / pandas rounding). -/
def rhe (x : ℚ) : ℤ :=
  let f := Rat.floor x
  let r := x - (f : ℚ)
  if r < 1/2 then f
  else if 1/2 < r then f + 1
  else if f % 2 = 0 then f else f + 1

/-- Round a rational to 2 decimal places, halves to even
(pandas `.round(2)`). -/
def round2 (x : ℚ) : ℚ := ((rhe (x * 100) : ℚ)) / 100

/-- Sum of the `Amount` column (`df['Amount'].sum()`). -/
def totalAmount (df : List Expense) : ℚ := (df.map (·.amount)).sum

/-- Rows of `df` belonging to category `c`. -/
def catRecords (df : List Expense) (c : String) : List Expense :=
  df.filter (fun r => r.category == c)

/-- Per-category raw (unrounded) total of the `Amount` column. -/
def catTotalRaw (df : List Expense) (c : String) : ℚ :=
  totalAmount (catRecords df c)

/-- Characters removed by Python's `str.strip()` (whitespace). -/
def isStripChar (c : Char) : Bool :=
  c = ' ' ∨ c = '\t' ∨ c = '\n' ∨ c = '\r'

/-- Embedding of Python's `str.strip()`: drop leading and trailing
whitespace characters. -/
def pyStrip (s : String) : String :=
  ⟨(((s.data.dropWhile isStripChar).reverse.dropWhile isStripChar).reverse)⟩

/-- The two validation failures of `add_new_expense` (both print a message
and leave the store untouched; the spec calls both `ValidationError`). -/
inductive ValidationError where
  | emptyField
  | nonPositiveAmount
deriving DecidableEq, Repr

/-- Embedding of `ExpenseTracker.add_new_expense` (lines 248-299): the user
inputs are stripped, then category/description are checked for emptiness,
then the amount is checked for positivity; on success the new row is
concatenated at the end of the DataFrame.  Returns the error (if any)
together with the resulting in-memory collection. -/
def add_new_expense (df : List Expense) (date : ℤ) (category : String)
    (amount : ℚ) (description : String) : Option ValidationError × List Expense :=
  if pyStrip category = "" ∨ pyStrip description = "" then (some .emptyField, df)
  else if amount ≤ 0 then (some .nonPositiveAmount, df)
  else (none, df ++ [⟨date, pyStrip category, amount, pyStrip description⟩])


/-- Insert a category name into an ascending list of names (helper for
`sortStrings`).  Strings are compared lexicographically through their
character lists (the same order as `String.instLT`, phrased so that the
kernel can evaluate it). -/
def insertStr (c : String) : List String → List String
  | [] => [c]
  | x :: xs => if x.data < c.data then x :: insertStr c xs else c :: x :: xs

/-- Sort category names ascending (insertion sort). -/
def sortStrings : List String → List String
  | [] => []
  | x :: xs => insertStr x (sortStrings xs)

/-- The distinct categories of `df` in ascending order: the group keys of
`df.groupby('Category')` (pandas' default `sort=True` orders the keys
ascending). -/
def groupKeys (df : List Expense) : List String :=
  sortStrings (df.map (·.category)).dedup

/-- Insert an element into a list descending by `key`, placing it before
the first element whose key is not larger (helper for `sortDescBy`). -/
def insertDescBy (key : α → ℚ) (x : α) : List α → List α
  | [] => [x]
  | y :: ys => if key x < key y then y :: insertDescBy key x ys else x :: y :: ys

/-- Descending sort by `key`: a deterministic refinement of
`sort_values(..., ascending=False)` (whose default quicksort leaves the
relative order of equal keys unspecified).  Only order-invariant facts
about its output are used below. -/
def sortDescBy (key : α → ℚ) (l : List α) : List α :=
  l.foldr (insertDescBy key) []

/-- One row of the table built by `category_analysis` (lines 130-140):
per-category sum / count / mean of `Amount` (each `.round(2)`-ed), the
count of `Description`, and the percentage of the grand total.  Note the
source computes the percentage from the already rounded `Total_Amount`
column. -/
structure CatStat where
  category : String
  total : ℚ
  count : ℕ
  avg : ℚ
  descriptionCount : ℕ
  percentage : ℚ
deriving DecidableEq, Repr

/-- The `category_stats` row for category `c`, given the grand total `T`
of the whole record set. -/
def statFor (df : List Expense) (T : ℚ) (c : String) : CatStat :=
  let n := (catRecords df c).length
  let t := catTotalRaw df c
  { category := c
    total := round2 t
    count := n
    avg := round2 (t / n)
    descriptionCount := n
    percentage := round2 (round2 t / T * 100) }

/-- The table computed by `category_analysis` on a non-empty record set:
one row per distinct category, sorted by `Total_Amount` descending
(lines 130-143). -/
def category_stats (df : List Expense) : List CatStat :=
  sortDescBy (·.total) ((groupKeys df).map (statFor df (totalAmount df)))

/-- Embedding of `ExpenseTracker.category_analysis` (lines 117-152): on an
empty record set it prints a message and returns nothing; otherwise it
returns the per-category table. -/
def category_analysis (df : List Expense) : Option (List CatStat) :=
  if df = [] then none else some (category_stats df)

/-- The record of the first occurrence of the maximum `Amount`
(`df['Amount'].idxmax()` returns the first index attaining the maximum). -/
def argmaxFirst (r : Expense) : List Expense → Expense
  | [] => r
  | x :: xs => if r.amount < x.amount then argmaxFirst x xs else argmaxFirst r xs

/-- The record of the first occurrence of the minimum `Amount`
(`df['Amount'].idxmin()` returns the first index attaining the minimum). -/
def argminFirst (r : Expense) : List Expense → Expense
  | [] => r
  | x :: xs => if x.amount < r.amount then argminFirst x xs else argminFirst r xs

/-- The figures displayed by `display_total_overview` on a non-empty
record set (lines 92-115). -/
structure Overview where
  totalAmount : ℚ
  count : ℕ
  average : ℚ
  highest : Expense
  lowest : Expense
deriving DecidableEq, Repr

/-- Embedding of `ExpenseTracker.display_total_overview` (lines 80-115):
on an empty record set it prints "No expenses found." and returns nothing
(the average is never computed); otherwise it reports the sum, count,
mean, and the first records attaining the maximal and minimal amounts. -/
def display_total_overview : List Expense → Option Overview
  | [] => none
  | r :: rs =>
    some { totalAmount := totalAmount (r :: rs)
           count := (r :: rs).length
           average := totalAmount (r :: rs) / ((r :: rs).length : ℚ)
           highest := argmaxFirst r rs
           lowest := argminFirst r rs }

/-- Rows of `df` whose date lies in the inclusive range `[s, e]`
(line 215: `(self.df['Date'] >= start_dt) & (self.df['Date'] <= end_dt)`). -/
def filteredRecords (df : List Expense) (s e : ℤ) : List Expense :=
  df.filter (fun r => decide (s ≤ r.date) && decide (r.date ≤ e))

/-- What `filter_by_date` reports: either the "No expenses found" message
(zero matches, not an error), or the matching rows together with their
total and the per-category totals and percentages of the subset (the
aggregate step runs only in the non-empty branch, lines 218-241). -/
inductive FilterReport where
  | zeroMatches
  | found (records : List Expense) (total : ℚ)
      (catTotals : List (String × ℚ × ℚ))
deriving DecidableEq, Repr

/-- Embedding of `ExpenseTracker.filter_by_date` (lines 198-246) after the
date strings have been parsed: filter to the inclusive range, report zero
matches on an empty subset, otherwise aggregate the subset (category
totals sorted descending, each with its unrounded percentage share). -/
def filter_by_date (df : List Expense) (s e : ℤ) : FilterReport :=
  if filteredRecords df s e = [] then .zeroMatches
  else
    .found (filteredRecords df s e) (totalAmount (filteredRecords df s e))
      (sortDescBy (fun p => p.2.1)
        ((groupKeys (filteredRecords df s e)).map (fun c =>
          (c, catTotalRaw (filteredRecords df s e) c,
            catTotalRaw (filteredRecords df s e) c
              / totalAmount (filteredRecords df s e) * 100))))

/-- The deterministic 7-record seed set built by `create_sample_data`
(lines 55-63). -/
def sample_data : List Expense :=
  [ ⟨20250610, "Food", 150, "Pizza at Dominos"⟩,
    ⟨20250611, "Transport", 50, "Rickshaw fare"⟩,
    ⟨20250612, "Rent", 5000, "June Rent"⟩,
    ⟨20250612, "Utilities", 200, "Electricity Bill"⟩,
    ⟨20250613, "Food", 300, "Grocery shopping"⟩,
    ⟨20250614, "Entertainment", 800, "Movie tickets"⟩,
    ⟨20250615, "Transport", 75, "Bus fare"⟩ ]

/-- The persistent state seen by `load_data` / `save_data`: the backing
CSV file (absent or a parsed row list) and the in-memory DataFrame. -/
structure SysState where
  file : Option (List Expense)
  df : List Expense
deriving DecidableEq, Repr

/-- Embedding of `ExpenseTracker.save_data` (lines 70-78): overwrite the
backing file with the full current record set. -/
def save_data (s : SysState) : SysState :=
  { s with file := some s.df }

/-- Embedding of `ExpenseTracker.create_sample_data` (lines 51-68): set
the DataFrame to the seed set and immediately persist it via
`save_data`. -/
def create_sample_data (s : SysState) : SysState :=
  save_data { s with df := sample_data }

/-- Embedding of `ExpenseTracker.load_data` (lines 33-49): read the file
when it exists, otherwise build and persist the sample data. -/
def load_data (s : SysState) : SysState :=
  match s.file with
  | some rows => { s with df := rows }
  | none => create_sample_data s


/-! Lemmas about the rounding function. -/

theorem ratFloor_eq (x : ℚ) : Rat.floor x = ⌊x⌋ :=
  (Rat.floor_def' x).trans Rat.floor_def.symm

theorem rhe_le (x : ℚ) : (rhe x : ℚ) ≤ x + 1/2 := by
  have hfl : (Rat.floor x : ℚ) ≤ x := by rw [ratFloor_eq]; exact Int.floor_le x
  have hfu : x < (Rat.floor x : ℚ) + 1 := by rw [ratFloor_eq]; exact Int.lt_floor_add_one x
  simp only [rhe]
  split_ifs with h1 h2 h3 <;> push_cast <;> linarith

theorem rhe_ge (x : ℚ) : x - 1/2 ≤ (rhe x : ℚ) := by
  have hfl : (Rat.floor x : ℚ) ≤ x := by rw [ratFloor_eq]; exact Int.floor_le x
  have hfu : x < (Rat.floor x : ℚ) + 1 := by rw [ratFloor_eq]; exact Int.lt_floor_add_one x
  simp only [rhe]
  split_ifs with h1 h2 h3 <;> push_cast <;> linarith

theorem round2_le (x : ℚ) : round2 x ≤ x + 1/200 := by
  have h := rhe_le (x * 100)
  unfold round2
  linarith

theorem round2_ge (x : ℚ) : x - 1/200 ≤ round2 x := by
  have h := rhe_ge (x * 100)
  unfold round2
  linarith

theorem rhe_intCast (n : ℤ) : rhe (n : ℚ) = n := by
  simp only [rhe, ratFloor_eq, Int.floor_intCast, sub_self]
  norm_num

theorem round2_hundredths (n : ℤ) : round2 ((n : ℚ)/100) = (n : ℚ)/100 := by
  unfold round2
  rw [div_mul_cancel₀ _ (by norm_num : (100:ℚ) ≠ 0), rhe_intCast]

/-! Lemmas about per-category totals. -/

theorem totalAmount_cons (r : Expense) (rs : List Expense) :
    totalAmount (r :: rs) = r.amount + totalAmount rs := by
  simp [totalAmount]

theorem catTotalRaw_nil (c : String) : catTotalRaw [] c = 0 := rfl

theorem catTotalRaw_cons (r : Expense) (rs : List Expense) (c : String) :
    catTotalRaw (r :: rs) c
      = (if r.category = c then r.amount else 0) + catTotalRaw rs c := by
  unfold catTotalRaw catRecords totalAmount
  by_cases h : r.category = c <;> simp [List.filter_cons, h]

theorem sum_ifcat_not_mem (ks : List String) (a : ℚ) (c0 : String) (h : c0 ∉ ks) :
    (ks.map fun c => if c0 = c then a else 0).sum = 0 := by
  induction ks with
  | nil => simp
  | cons k ks ih =>
    simp only [List.mem_cons, not_or] at h
    simp [h.1, ih h.2]

theorem sum_ifcat_mem (ks : List String) (a : ℚ) (c0 : String)
    (hnd : ks.Nodup) (hm : c0 ∈ ks) :
    (ks.map fun c => if c0 = c then a else 0).sum = a := by
  induction ks with
  | nil => simp at hm
  | cons k ks ih =>
    rcases List.mem_cons.1 hm with h | h
    · subst h
      simp [sum_ifcat_not_mem ks a c0 (List.nodup_cons.1 hnd).1]
    · have hne : c0 ≠ k := fun e => (List.nodup_cons.1 hnd).1 (e ▸ h)
      simp [hne, ih (List.nodup_cons.1 hnd).2 h]

/-- The per-category raw totals partition the grand total: summed over any
duplicate-free list of categories covering the record set they give
`totalAmount`. -/
theorem sum_catTotalRaw (df : List Expense) (ks : List String) (hnd : ks.Nodup)
    (hcov : ∀ r ∈ df, r.category ∈ ks) :
    (ks.map (catTotalRaw df)).sum = totalAmount df := by
  induction df with
  | nil =>
    rw [List.map_congr_left (fun c _ => catTotalRaw_nil c)]
    simp [totalAmount]
  | cons r rs ih =>
    rw [List.map_congr_left (fun c _ => catTotalRaw_cons r rs c),
      List.sum_map_add,
      sum_ifcat_mem ks r.amount r.category hnd (hcov r (List.mem_cons_self r rs)),
      ih (fun x hx => hcov x (List.mem_cons_of_mem r hx)), totalAmount_cons]

theorem catTotalRaw_nonneg (df : List Expense) (c : String)
    (h : ∀ r ∈ df, 0 ≤ r.amount) : 0 ≤ catTotalRaw df c := by
  induction df with
  | nil => simp [catTotalRaw_nil]
  | cons r rs ih =>
    have h0 := h r (List.mem_cons_self r rs)
    have ih2 := ih (fun x hx => h x (List.mem_cons_of_mem r hx))
    rw [catTotalRaw_cons]
    split_ifs <;> linarith

theorem catTotalRaw_le (df : List Expense) (c : String)
    (h : ∀ r ∈ df, 0 ≤ r.amount) : catTotalRaw df c ≤ totalAmount df := by
  induction df with
  | nil => simp [catTotalRaw_nil, totalAmount]
  | cons r rs ih =>
    have h0 := h r (List.mem_cons_self r rs)
    have ih2 := ih (fun x hx => h x (List.mem_cons_of_mem r hx))
    rw [catTotalRaw_cons, totalAmount_cons]
    split_ifs <;> linarith

theorem catTotalRaw_pos (df : List Expense) (c : String)
    (hpos : ∀ r ∈ df, 0 < r.amount) (hc : c ∈ df.map (·.category)) :
    0 < catTotalRaw df c := by
  induction df with
  | nil => simp at hc
  | cons r rs ih =>
    rw [catTotalRaw_cons]
    have hnn : 0 ≤ catTotalRaw rs c :=
      catTotalRaw_nonneg rs c (fun x hx => le_of_lt (hpos x (List.mem_cons_of_mem r hx)))
    by_cases hr : r.category = c
    · have := hpos r (List.mem_cons_self r rs)
      rw [if_pos hr]
      linarith
    · rw [if_neg hr]
      simp only [List.map_cons, List.mem_cons] at hc
      rcases hc with hc | hc
      · exact absurd hc.symm hr
      · simpa using ih (fun x hx => hpos x (List.mem_cons_of_mem r hx)) hc

theorem catTotalRaw_cents (df : List Expense) (c : String)
    (h : ∀ r ∈ df, ∃ n : ℤ, r.amount = (n : ℚ)/100) :
    ∃ N : ℤ, catTotalRaw df c = (N : ℚ)/100 := by
  induction df with
  | nil => exact ⟨0, by simp [catTotalRaw_nil]⟩
  | cons r rs ih =>
    obtain ⟨n, hn⟩ := h r (List.mem_cons_self r rs)
    obtain ⟨N, hN⟩ := ih (fun x hx => h x (List.mem_cons_of_mem r hx))
    rw [catTotalRaw_cons, hn, hN]
    by_cases hc : r.category = c
    · exact ⟨n + N, by rw [if_pos hc]; push_cast; ring⟩
    · exact ⟨N, by rw [if_neg hc]; ring⟩

/-- Independently rounding each summand to 2 decimal places moves a sum by
at most half a cent per summand. -/
theorem sum_round2_err (ks : List String) (f : String → ℚ) :
    |(ks.map fun c => round2 (f c)).sum - (ks.map f).sum|
      ≤ (ks.length : ℚ) * (1/200) := by
  induction ks with
  | nil => simp
  | cons k ks ih =>
    simp only [List.map_cons, List.sum_cons, List.length_cons]
    have h1 := round2_le (f k)
    have h2 := round2_ge (f k)
    have hk : |round2 (f k) - f k| ≤ 1/200 := abs_le.2 ⟨by linarith, by linarith⟩
    have key : round2 (f k) + (ks.map fun c => round2 (f c)).sum
        - (f k + (ks.map f).sum)
        = (round2 (f k) - f k)
          + ((ks.map fun c => round2 (f c)).sum - (ks.map f).sum) := by ring
    rw [key]
    have habs := abs_add (round2 (f k) - f k)
      ((ks.map fun c => round2 (f c)).sum - (ks.map f).sum)
    have hcast : ((ks.length + 1 : ℕ) : ℚ) = (ks.length : ℚ) + 1 := by push_cast; ring
    rw [hcast]
    linarith

/-! Lemmas about the category-key sort. -/

theorem strLt_data {a b : String} : a.data < b.data ↔ a < b := by
  rw [String.lt_iff_toList_lt]
  rfl

theorem insertStr_perm (c : String) (l : List String) :
    List.Perm (insertStr c l) (c :: l) := by
  induction l with
  | nil => rfl
  | cons x xs ih =>
    simp only [insertStr]
    split_ifs with h
    · exact (ih.cons x).trans (List.Perm.swap c x xs)
    · rfl

theorem sortStrings_perm (l : List String) : List.Perm (sortStrings l) l := by
  induction l with
  | nil => rfl
  | cons x xs ih => exact (insertStr_perm x (sortStrings xs)).trans (ih.cons x)

theorem insertStr_sorted (c : String) (l : List String)
    (hs : l.Sorted (· < ·)) (hc : c ∉ l) :
    (insertStr c l).Sorted (· < ·) := by
  induction l with
  | nil => simp [insertStr]
  | cons x xs ih =>
    rw [List.sorted_cons] at hs
    simp only [insertStr]
    split_ifs with h
    · rw [List.sorted_cons]
      refine ⟨fun b hb => ?_, ih hs.2 (fun hm => hc (List.mem_cons_of_mem x hm))⟩
      rcases List.mem_cons.1 ((insertStr_perm c xs).mem_iff.1 hb) with rfl | hbx
      · exact strLt_data.1 h
      · exact hs.1 b hbx
    · have hcx : c < x := by
        have hne : c ≠ x := fun e => hc (e ▸ List.mem_cons_self x xs)
        have hnlt : ¬ x < c := fun hlt => h (strLt_data.2 hlt)
        rcases lt_trichotomy c x with h1 | h1 | h1
        · exact h1
        · exact absurd h1 hne
        · exact absurd h1 hnlt
      rw [List.sorted_cons]
      refine ⟨fun b hb => ?_, List.sorted_cons.2 hs⟩
      rcases List.mem_cons.1 hb with rfl | hbx
      · exact hcx
      · exact lt_trans hcx (hs.1 b hbx)

theorem sortStrings_sorted (l : List String) (h : l.Nodup) :
    (sortStrings l).Sorted (· < ·) := by
  induction l with
  | nil => simp [sortStrings]
  | cons x xs ih =>
    have hx : x ∉ sortStrings xs :=
      fun hm => (List.nodup_cons.1 h).1 ((sortStrings_perm xs).mem_iff.1 hm)
    exact insertStr_sorted x _ (ih (List.nodup_cons.1 h).2) hx

theorem groupKeys_sorted (df : List Expense) : (groupKeys df).Sorted (· < ·) :=
  sortStrings_sorted _ (List.nodup_dedup _)

theorem mem_groupKeys {c : String} {df : List Expense} :
    c ∈ groupKeys df ↔ c ∈ df.map (·.category) :=
  ((sortStrings_perm _).mem_iff).trans List.mem_dedup

theorem groupKeys_nodup (df : List Expense) : (groupKeys df).Nodup :=
  ((sortStrings_perm _).nodup_iff).2 (List.nodup_dedup _)

/-! Lemmas about the stable descending sort. -/

theorem insertDescBy_perm (key : α → ℚ) (x : α) (l : List α) :
    List.Perm (insertDescBy key x l) (x :: l) := by
  induction l with
  | nil => rfl
  | cons y ys ih =>
    simp only [insertDescBy]
    split_ifs with h
    · exact (ih.cons y).trans (List.Perm.swap x y ys)
    · rfl

theorem sortDescBy_perm (key : α → ℚ) (l : List α) :
    List.Perm (sortDescBy key l) l := by
  induction l with
  | nil => rfl
  | cons x xs ih =>
    exact (insertDescBy_perm key x (sortDescBy key xs)).trans (ih.cons x)

/-! Lemmas about the first-occurrence extremum scans. -/

theorem argmaxFirst_spec (rs : List Expense) : ∀ r : Expense,
    (∀ x ∈ r :: rs, x.amount ≤ (argmaxFirst r rs).amount) ∧
    ∃ l1 l2, r :: rs = l1 ++ (argmaxFirst r rs) :: l2 ∧
      ∀ x ∈ l1, x.amount < (argmaxFirst r rs).amount := by
  induction rs with
  | nil =>
    intro r
    refine ⟨?_, [], [], rfl, by simp⟩
    intro x hx
    rcases List.mem_cons.1 hx with rfl | h
    · exact le_refl _
    · simp at h
  | cons x xs ih =>
    intro r
    by_cases h : r.amount < x.amount
    · obtain ⟨hmax, l1, l2, heq, hlt⟩ := ih x
      have hred : argmaxFirst r (x :: xs) = argmaxFirst x xs := by
        simp [argmaxFirst, h]
      rw [hred]
      refine ⟨?_, r :: l1, l2, by rw [List.cons_append, ← heq], ?_⟩
      · intro y hy
        rcases List.mem_cons.1 hy with rfl | hy2
        · exact le_trans (le_of_lt h) (hmax x (List.mem_cons_self x xs))
        · exact hmax y hy2
      · intro y hy
        rcases List.mem_cons.1 hy with rfl | hy2
        · exact lt_of_lt_of_le h (hmax x (List.mem_cons_self x xs))
        · exact hlt y hy2
    · obtain ⟨hmax, l1, l2, heq, hlt⟩ := ih r
      have hred : argmaxFirst r (x :: xs) = argmaxFirst r xs := by
        simp [argmaxFirst, h]
      rw [hred]
      refine ⟨?_, ?_⟩
      · intro y hy
        rcases List.mem_cons.1 hy with rfl | hy2
        · exact hmax y (List.mem_cons_self y xs)
        · rcases List.mem_cons.1 hy2 with rfl | hy3
          · exact le_trans (not_lt.1 h) (hmax r (List.mem_cons_self r xs))
          · exact hmax y (List.mem_cons_of_mem r hy3)
      · cases l1 with
        | nil =>
          rw [List.nil_append] at heq
          injection heq with h1 h2
          refine ⟨[], x :: xs, ?_, by simp⟩
          rw [List.nil_append, ← h1]
        | cons a l1t =>
          rw [List.cons_append] at heq
          injection heq with h1 h2
          have hra : r.amount < (argmaxFirst r xs).amount := by
            have hax := hlt a (List.mem_cons_self a l1t)
            rw [← h1] at hax
            exact hax
          refine ⟨r :: x :: l1t, l2, ?_, ?_⟩
          · rw [List.cons_append, List.cons_append, ← h2]
          · intro y hy
            rcases List.mem_cons.1 hy with rfl | hy2
            · exact hra
            · rcases List.mem_cons.1 hy2 with rfl | hy3
              · exact lt_of_le_of_lt (not_lt.1 h) hra
              · exact hlt y (List.mem_cons_of_mem a hy3)

theorem argminFirst_spec (rs : List Expense) : ∀ r : Expense,
    (∀ x ∈ r :: rs, (argminFirst r rs).amount ≤ x.amount) ∧
    ∃ l1 l2, r :: rs = l1 ++ (argminFirst r rs) :: l2 ∧
      ∀ x ∈ l1, (argminFirst r rs).amount < x.amount := by
  induction rs with
  | nil =>
    intro r
    refine ⟨?_, [], [], rfl, by simp⟩
    intro x hx
    rcases List.mem_cons.1 hx with rfl | h
    · exact le_refl _
    · simp at h
  | cons x xs ih =>
    intro r
    by_cases h : x.amount < r.amount
    · obtain ⟨hmin, l1, l2, heq, hlt⟩ := ih x
      have hred : argminFirst r (x :: xs) = argminFirst x xs := by
        simp [argminFirst, h]
      rw [hred]
      refine ⟨?_, r :: l1, l2, by rw [List.cons_append, ← heq], ?_⟩
      · intro y hy
        rcases List.mem_cons.1 hy with rfl | hy2
        · exact le_trans (hmin x (List.mem_cons_self x xs)) (le_of_lt h)
        · exact hmin y hy2
      · intro y hy
        rcases List.mem_cons.1 hy with rfl | hy2
        · exact lt_of_le_of_lt (hmin x (List.mem_cons_self x xs)) h
        · exact hlt y hy2
    · obtain ⟨hmin, l1, l2, heq, hlt⟩ := ih r
      have hred : argminFirst r (x :: xs) = argminFirst r xs := by
        simp [argminFirst, h]
      rw [hred]
      refine ⟨?_, ?_⟩
      · intro y hy
        rcases List.mem_cons.1 hy with rfl | hy2
        · exact hmin y (List.mem_cons_self y xs)
        · rcases List.mem_cons.1 hy2 with rfl | hy3
          · exact le_trans (hmin r (List.mem_cons_self r xs)) (not_lt.1 h)
          · exact hmin y (List.mem_cons_of_mem r hy3)
      · cases l1 with
        | nil =>
          rw [List.nil_append] at heq
          injection heq with h1 h2
          refine ⟨[], x :: xs, ?_, by simp⟩
          rw [List.nil_append, ← h1]
        | cons a l1t =>
          rw [List.cons_append] at heq
          injection heq with h1 h2
          have hra : (argminFirst r xs).amount < r.amount := by
            have hax := hlt a (List.mem_cons_self a l1t)
            rw [← h1] at hax
            exact hax
          refine ⟨r :: x :: l1t, l2, ?_, ?_⟩
          · rw [List.cons_append, List.cons_append, ← h2]
          · intro y hy
            rcases List.mem_cons.1 hy with rfl | hy2
            · exact hra
            · rcases List.mem_cons.1 hy2 with rfl | hy3
              · exact lt_of_lt_of_le hra (not_lt.1 h)
              · exact hlt y (List.mem_cons_of_mem a hy3)

/-! Lemmas about the date-range filter. -/

theorem mem_filteredRecords {r : Expense} {df : List Expense} {s e : ℤ} :
    r ∈ filteredRecords df s e ↔ r ∈ df ∧ (s ≤ r.date ∧ r.date ≤ e) := by
  unfold filteredRecords
  rw [List.mem_filter]
  simp

theorem filteredRecords_sublist (df : List Expense) (s e : ℤ) :
    (filteredRecords df s e).Sublist df :=
  List.filter_sublist df

theorem filteredRecords_empty_of_gt (df : List Expense) {s e : ℤ} (h : e < s) :
    filteredRecords df s e = [] := by
  unfold filteredRecords
  rw [List.filter_eq_nil_iff]
  intro r hr
  simp only [Bool.and_eq_true, decide_eq_true_eq, not_and]
  intro h1 h2
  omega

theorem totalAmount_nonneg (df : List Expense)
    (h : ∀ r ∈ df, 0 ≤ r.amount) : 0 ≤ totalAmount df := by
  induction df with
  | nil => simp [totalAmount]
  | cons r rs ih =>
    rw [totalAmount_cons]
    have h0 := h r (List.mem_cons_self r rs)
    have h1 := ih (fun x hx => h x (List.mem_cons_of_mem r hx))
    linarith

theorem totalAmount_pos (df : List Expense) (hne : df ≠ [])
    (h : ∀ r ∈ df, 0 < r.amount) : 0 < totalAmount df := by
  cases df with
  | nil => exact absurd rfl hne
  | cons r rs =>
    rw [totalAmount_cons]
    have h0 := h r (List.mem_cons_self r rs)
    have h1 : 0 ≤ totalAmount rs :=
      totalAmount_nonneg rs (fun x hx => le_of_lt (h x (List.mem_cons_of_mem r hx)))
    linarith

/-! Claim theorems. -/

/-- C1: for every store state and candidate record, if the record is
invalid (amount non-positive, or category or description empty after
stripping) then `add_new_expense` fails with a `ValidationError` and the
in-memory collection is unchanged — the same list, hence the same length
and records. -/
theorem C1_invalid_append_rejected (df : List Expense) (date : ℤ)
    (category : String) (amount : ℚ) (description : String)
    (h : amount ≤ 0 ∨ pyStrip category = "" ∨ pyStrip description = "") :
    (∃ err : ValidationError,
      add_new_expense df date category amount description = (some err, df)) ∧
    (add_new_expense df date category amount description).2.length = df.length := by
  unfold add_new_expense
  by_cases h1 : pyStrip category = "" ∨ pyStrip description = ""
  · rw [if_pos h1]
    exact ⟨⟨.emptyField, rfl⟩, rfl⟩
  · have h2 : amount ≤ 0 := by tauto
    rw [if_neg h1, if_pos h2]
    exact ⟨⟨.nonPositiveAmount, rfl⟩, rfl⟩

/-- C1 witness: appending a record with amount `-5` to the seed store is
rejected and leaves the store at its prior length. -/
theorem C1_invalid_append_rejected_witness :
    ((-5 : ℚ) ≤ 0 ∨ pyStrip "Food" = "" ∨ pyStrip "snacks" = "") ∧
    ((∃ err : ValidationError,
        add_new_expense sample_data 0 "Food" (-5) "snacks" = (some err, sample_data)) ∧
      (add_new_expense sample_data 0 "Food" (-5) "snacks").2.length
        = sample_data.length) :=
  ⟨Or.inl (by norm_num),
    C1_invalid_append_rejected sample_data 0 "Food" (-5) "snacks"
      (Or.inl (by norm_num))⟩

/-- C10: the emptiness check on the stripped category/description precedes
the positivity check on the amount: a candidate that fails both is
reported with the empty-field `ValidationError`, so the amount check is
never reached. -/
theorem C10_empty_field_checked_first (df : List Expense) (date : ℤ)
    (category : String) (amount : ℚ) (description : String)
    (hempty : pyStrip category = "" ∨ pyStrip description = "")
    (hamt : amount ≤ 0) :
    (add_new_expense df date category amount description).1
      = some ValidationError.emptyField := by
  unfold add_new_expense
  rw [if_pos hempty]

/-- C10 witness: a blank category together with amount `-5` is rejected as
an empty field, not as a non-positive amount. -/
theorem C10_empty_field_checked_first_witness :
    (pyStrip "  " = "" ∨ pyStrip "stuff" = "") ∧ ((-5 : ℚ) ≤ 0) ∧
    (add_new_expense sample_data 0 "  " (-5) "stuff").1
      = some ValidationError.emptyField :=
  ⟨Or.inl (by decide), by norm_num,
    C10_empty_field_checked_first sample_data 0 "  " (-5) "stuff"
      (Or.inl (by decide)) (by norm_num)⟩

/-- C4: the date filter keeps exactly the records with
`start <= date <= end` (a sublist of the store, with membership
characterised by the inclusive bounds); a single record with date `d` is
returned by the range `[d, d]`; and a reversed range (`start > end`)
yields the zero-matches report, not an error. -/
theorem C4_date_range_filter (df : List Expense) (s e : ℤ) :
    (∀ r : Expense,
      r ∈ filteredRecords df s e ↔ r ∈ df ∧ (s ≤ r.date ∧ r.date ≤ e)) ∧
    (filteredRecords df s e).Sublist df ∧
    (∀ r : Expense, filteredRecords [r] r.date r.date = [r]) ∧
    (e < s → filter_by_date df s e = FilterReport.zeroMatches) := by
  refine ⟨fun r => mem_filteredRecords, filteredRecords_sublist df s e, ?_, ?_⟩
  · intro r
    simp [filteredRecords, List.filter]
  · intro hgt
    unfold filter_by_date
    rw [if_pos (filteredRecords_empty_of_gt df hgt)]

/-- C4 witness: the range `[d, d]` returns exactly the one record dated
`d`, and a reversed range reports zero matches on the seed store. -/
theorem C4_date_range_filter_witness :
    filteredRecords [⟨20250612, "Rent", 5000, "June Rent"⟩] 20250612 20250612
        = [⟨20250612, "Rent", 5000, "June Rent"⟩] ∧
    filter_by_date sample_data 20250615 20250610 = FilterReport.zeroMatches :=
  ⟨(C4_date_range_filter [] 0 0).2.2.1 ⟨20250612, "Rent", 5000, "June Rent"⟩,
    (C4_date_range_filter sample_data 20250615 20250610).2.2.2 (by norm_num)⟩

/-- C5: no division by zero is reachable in the aggregates: on an empty
store the overview reports no data (and never forms the average), every
reported overview has a positive count in the denominator of its average,
and when the date-filtered subset is empty the aggregate step is skipped
entirely (the report is just zero-matches). -/
theorem C5_no_division_by_zero (df : List Expense) :
    (df = [] → display_total_overview df = none) ∧
    (∀ o : Overview, display_total_overview df = some o →
      0 < o.count ∧ o.average = o.totalAmount / (o.count : ℚ)) ∧
    (∀ s e : ℤ, filteredRecords df s e = [] →
      filter_by_date df s e = FilterReport.zeroMatches) := by
  refine ⟨?_, ?_, ?_⟩
  · intro h
    subst h
    rfl
  · intro o ho
    cases df with
    | nil => simp [display_total_overview] at ho
    | cons r rs =>
      simp only [display_total_overview, Option.some_inj] at ho
      subst ho
      exact ⟨Nat.succ_pos _, rfl⟩
  · intro s e h
    unfold filter_by_date
    rw [if_pos h]

/-- C5 witness: the empty store reports no data, the seed store's overview
has positive count, and a range matching nothing on the seed store reports
zero matches. -/
theorem C5_no_division_by_zero_witness :
    display_total_overview ([] : List Expense) = none ∧
    (0 < (7 : ℕ)) ∧
    filter_by_date sample_data 1 2 = FilterReport.zeroMatches :=
  ⟨(C5_no_division_by_zero []).1 rfl,
    ((C5_no_division_by_zero sample_data).2.1
      ⟨6575, 7, 6575/7, ⟨20250612, "Rent", 5000, "June Rent"⟩,
        ⟨20250611, "Transport", 50, "Rickshaw fare"⟩⟩ (by decide)).1,
    (C5_no_division_by_zero sample_data).2.2 1 2 (by decide)⟩

/-- C6: on the fixed 7-record seed set the overview reports a total of
6575, an average of 939.29 once rounded to 2 decimal places, the 5000
Rent record as highest, and the 50 Transport record as lowest. -/
theorem C6_seed_overview :
    (display_total_overview sample_data).map
        (fun o => (o.totalAmount, round2 o.average, o.highest, o.lowest))
      = some (6575, 93929/100,
          ⟨20250612, "Rent", 5000, "June Rent"⟩,
          ⟨20250611, "Transport", 50, "Rickshaw fare"⟩) := by
  decide

/-- C9: loading with no backing file present builds exactly the 7-record
seed set and persists it within the load itself — the returned state
already has the seed written to the file, before any report could run. -/
theorem C9_load_missing_file (s : SysState) (h : s.file = none) :
    load_data s = { file := some sample_data, df := sample_data } ∧
    sample_data.length = 7 := by
  refine ⟨?_, rfl⟩
  cases s with
  | mk file df =>
    simp only at h
    subst h
    rfl

/-- C9 witness: loading from a fresh state with no file yields the seeded,
already-persisted state. -/
theorem C9_load_missing_file_witness :
    load_data ⟨none, []⟩ = { file := some sample_data, df := sample_data } ∧
    sample_data.length = 7 :=
  C9_load_missing_file ⟨none, []⟩ rfl

/-- C3: the rounded per-category totals of `category_analysis` sum to the
overview's grand total up to the tolerance introduced by rounding each
per-category total to 2 decimal places (half a cent per category). -/
theorem C3_totals_partition (df : List Expense) (o : Overview)
    (h : display_total_overview df = some o) :
    category_analysis df = some (category_stats df) ∧
    |((category_stats df).map (·.total)).sum - o.totalAmount|
      ≤ ((category_stats df).length : ℚ) * (1/200) := by
  have hne : df ≠ [] := by
    intro hh
    subst hh
    simp [display_total_overview] at h
  have hTA : o.totalAmount = totalAmount df := by
    cases df with
    | nil => exact absurd rfl hne
    | cons r rs =>
      simp only [display_total_overview, Option.some_inj] at h
      rw [← h]
  refine ⟨by unfold category_analysis; rw [if_neg hne], ?_⟩
  have hperm := sortDescBy_perm (fun st : CatStat => st.total)
    ((groupKeys df).map (statFor df (totalAmount df)))
  have hsum : ((category_stats df).map (·.total)).sum
      = (((groupKeys df).map (statFor df (totalAmount df))).map (·.total)).sum :=
    (hperm.map (·.total)).sum_eq
  have hlen : (category_stats df).length = (groupKeys df).length := by
    unfold category_stats
    rw [hperm.length_eq, List.length_map]
  rw [hTA, hlen, hsum, List.map_map]
  have hfun : ((fun st : CatStat => st.total) ∘ statFor df (totalAmount df))
      = fun c => round2 (catTotalRaw df c) := rfl
  rw [hfun]
  have hpart := sum_catTotalRaw df (groupKeys df) (groupKeys_nodup df)
    (fun r hr => mem_groupKeys.2 (List.mem_map.2 ⟨r, hr, rfl⟩))
  have herr := sum_round2_err (groupKeys df) (catTotalRaw df)
  rw [hpart] at herr
  exact herr

/-- C3 witness: on the seed set the rounded per-category totals sum to the
grand total 6575 within half a cent per category. -/
theorem C3_totals_partition_witness :
    category_analysis sample_data = some (category_stats sample_data) ∧
    |((category_stats sample_data).map (·.total)).sum - (6575 : ℚ)|
      ≤ ((category_stats sample_data).length : ℚ) * (1/200) :=
  C3_totals_partition sample_data
    ⟨6575, 7, 6575/7, ⟨20250612, "Rent", 5000, "June Rent"⟩,
      ⟨20250611, "Transport", 50, "Rickshaw fare"⟩⟩ (by decide)

/-- C8: the overview's highest and lowest records are a maximum and a
minimum of the amounts, and each is the first such occurrence in the
underlying collection: everything strictly before it has a strictly
smaller (resp. larger) amount. -/
theorem C8_extremes_first_occurrence (df : List Expense) (o : Overview)
    (h : display_total_overview df = some o) :
    (o.highest ∈ df ∧ (∀ r ∈ df, r.amount ≤ o.highest.amount) ∧
      ∃ l1 l2, df = l1 ++ o.highest :: l2 ∧
        ∀ r ∈ l1, r.amount < o.highest.amount) ∧
    (o.lowest ∈ df ∧ (∀ r ∈ df, o.lowest.amount ≤ r.amount) ∧
      ∃ l1 l2, df = l1 ++ o.lowest :: l2 ∧
        ∀ r ∈ l1, o.lowest.amount < r.amount) := by
  cases df with
  | nil => simp [display_total_overview] at h
  | cons r rs =>
    have hh : o.highest = argmaxFirst r rs := by
      simp only [display_total_overview, Option.some_inj] at h
      rw [← h]
    have hl : o.lowest = argminFirst r rs := by
      simp only [display_total_overview, Option.some_inj] at h
      rw [← h]
    obtain ⟨hmax, l1, l2, heq, hlt⟩ := argmaxFirst_spec rs r
    obtain ⟨hmin, m1, m2, heq2, hlt2⟩ := argminFirst_spec rs r
    rw [hh, hl]
    refine ⟨⟨?_, hmax, l1, l2, heq, hlt⟩, ⟨?_, hmin, m1, m2, heq2, hlt2⟩⟩
    · rw [heq]
      exact List.mem_append_right l1 (List.mem_cons_self _ l2)
    · rw [heq2]
      exact List.mem_append_right m1 (List.mem_cons_self _ m2)

/-- C8 witness: with duplicated extreme amounts, the first 5-amount record
and the first 1-amount record are reported, each preceded only by strictly
smaller (resp. larger) amounts. -/
theorem C8_extremes_first_occurrence_witness :
    ((⟨0, "A", 5, "a"⟩ : Expense)
        ∈ [⟨0, "A", 5, "a"⟩, ⟨1, "B", 1, "b"⟩, ⟨2, "C", 5, "c"⟩,
            (⟨3, "D", 1, "d"⟩ : Expense)] ∧
      (∀ r ∈ [⟨0, "A", 5, "a"⟩, ⟨1, "B", 1, "b"⟩, ⟨2, "C", 5, "c"⟩,
            (⟨3, "D", 1, "d"⟩ : Expense)],
        r.amount ≤ (5 : ℚ)) ∧
      ∃ l1 l2,
        [⟨0, "A", 5, "a"⟩, ⟨1, "B", 1, "b"⟩, ⟨2, "C", 5, "c"⟩,
            (⟨3, "D", 1, "d"⟩ : Expense)]
          = l1 ++ (⟨0, "A", 5, "a"⟩ : Expense) :: l2 ∧
        ∀ r ∈ l1, r.amount < (5 : ℚ)) ∧
    ((⟨1, "B", 1, "b"⟩ : Expense)
        ∈ [⟨0, "A", 5, "a"⟩, ⟨1, "B", 1, "b"⟩, ⟨2, "C", 5, "c"⟩,
            (⟨3, "D", 1, "d"⟩ : Expense)] ∧
      (∀ r ∈ [⟨0, "A", 5, "a"⟩, ⟨1, "B", 1, "b"⟩, ⟨2, "C", 5, "c"⟩,
            (⟨3, "D", 1, "d"⟩ : Expense)],
        (1 : ℚ) ≤ r.amount) ∧
      ∃ l1 l2,
        [⟨0, "A", 5, "a"⟩, ⟨1, "B", 1, "b"⟩, ⟨2, "C", 5, "c"⟩,
            (⟨3, "D", 1, "d"⟩ : Expense)]
          = l1 ++ (⟨1, "B", 1, "b"⟩ : Expense) :: l2 ∧
        ∀ r ∈ l1, (1 : ℚ) < r.amount) :=
  C8_extremes_first_occurrence
    [⟨0, "A", 5, "a"⟩, ⟨1, "B", 1, "b"⟩, ⟨2, "C", 5, "c"⟩, ⟨3, "D", 1, "d"⟩]
    ⟨12, 4, 3, ⟨0, "A", 5, "a"⟩, ⟨1, "B", 1, "b"⟩⟩ (by decide)

theorem round2_nonneg {x : ℚ} (h0 : 0 ≤ x) : 0 ≤ round2 x := by
  have h1 := rhe_ge (x * 100)
  have h2 : (-1 : ℚ) < (rhe (x * 100) : ℚ) := by linarith
  have h3 : (-1 : ℤ) < rhe (x * 100) := by exact_mod_cast h2
  have h4 : (0 : ℤ) ≤ rhe (x * 100) := by omega
  have h5 : (0 : ℚ) ≤ (rhe (x * 100) : ℚ) := by exact_mod_cast h4
  unfold round2
  linarith

theorem round2_le_hundred {x : ℚ} (h0 : x ≤ 100) : round2 x ≤ 100 := by
  have h1 := rhe_le (x * 100)
  have h2 : (rhe (x * 100) : ℚ) < 10001 := by linarith
  have h3 : rhe (x * 100) < (10001 : ℤ) := by exact_mod_cast h2
  have h4 : rhe (x * 100) ≤ (10000 : ℤ) := by omega
  have h5 : (rhe (x * 100) : ℚ) ≤ 10000 := by exact_mod_cast h4
  unfold round2
  linarith

theorem mem_category_stats {st : CatStat} {df : List Expense}
    (h : st ∈ category_stats df) :
    ∃ c ∈ groupKeys df, st = statFor df (totalAmount df) c := by
  unfold category_stats at h
  obtain ⟨c, hc, heq⟩ :=
    List.mem_map.1 ((sortDescBy_perm (fun st : CatStat => st.total) _).mem_iff.1 h)
  exact ⟨c, hc, heq.symm⟩

/-- C7 counterexample: a single record with the positive amount `0.006`
(a legal store: all amounts positive) produces a percentage of 166.67,
outside `[0, 100]`, and a percentage sum 66.67 away from 100 — far beyond
`0.01 x (category count)`.  The source computes each percentage from the
already rounded per-category total (0.006 rounds to 0.01), so the claimed
bounds fail. -/
theorem C7_percentage_counterexample :
    ([⟨0, "A", 3/500, "tea"⟩] : List Expense) ≠ [] ∧
    (∀ r ∈ ([⟨0, "A", 3/500, "tea"⟩] : List Expense), 0 < r.amount) ∧
    category_analysis [⟨0, "A", 3/500, "tea"⟩]
      = some (category_stats [⟨0, "A", 3/500, "tea"⟩]) ∧
    (∃ st ∈ category_stats [⟨0, "A", 3/500, "tea"⟩],
      ¬ (st.percentage ≤ 100)) ∧
    ¬ (|((category_stats [⟨0, "A", 3/500, "tea"⟩]).map (·.percentage)).sum - 100|
        ≤ ((category_stats [⟨0, "A", 3/500, "tea"⟩]).length : ℚ) * (1/100)) := by
  decide

/-- C7 (amended): for every non-empty record set whose amounts are
positive whole multiples of 0.01 (so per-category totals are unchanged by
the source's rounding), every percentage of `category_analysis` lies in
`[0, 100]` and the percentage sum differs from 100 by at most
`0.01 x (category count)`. -/
theorem C7_amended_percentages (df : List Expense) (hne : df ≠ [])
    (hpos : ∀ r ∈ df, 0 < r.amount)
    (hcents : ∀ r ∈ df, ∃ n : ℤ, r.amount = (n : ℚ)/100) :
    (∀ st ∈ category_stats df, 0 ≤ st.percentage ∧ st.percentage ≤ 100) ∧
    |((category_stats df).map (·.percentage)).sum - 100|
      ≤ ((category_stats df).length : ℚ) * (1/100) := by
  have hT : 0 < totalAmount df := totalAmount_pos df hne hpos
  have hfix : ∀ c ∈ groupKeys df,
      round2 (catTotalRaw df c) = catTotalRaw df c := by
    intro c hc
    obtain ⟨N, hN⟩ := catTotalRaw_cents df c hcents
    rw [hN, round2_hundredths]
  constructor
  · intro st hst
    obtain ⟨c, hc, hst_eq⟩ := mem_category_stats hst
    subst hst_eq
    have hle_c : catTotalRaw df c ≤ totalAmount df :=
      catTotalRaw_le df c (fun r hr => le_of_lt (hpos r hr))
    have hnn_c : 0 ≤ catTotalRaw df c :=
      catTotalRaw_nonneg df c (fun r hr => le_of_lt (hpos r hr))
    have hPerc : (statFor df (totalAmount df) c).percentage
        = round2 (catTotalRaw df c / totalAmount df * 100) := by
      show round2 (round2 (catTotalRaw df c) / totalAmount df * 100) = _
      rw [hfix c hc]
    rw [hPerc]
    have h0 : 0 ≤ catTotalRaw df c / totalAmount df * 100 := by positivity
    have h100 : catTotalRaw df c / totalAmount df * 100 ≤ 100 := by
      have := (div_le_one hT).2 hle_c
      linarith
    exact ⟨round2_nonneg h0, round2_le_hundred h100⟩
  · have hperm := sortDescBy_perm (fun st : CatStat => st.total)
      ((groupKeys df).map (statFor df (totalAmount df)))
    have hsum : ((category_stats df).map (·.percentage)).sum
        = (((groupKeys df).map (statFor df (totalAmount df))).map (·.percentage)).sum :=
      (hperm.map (·.percentage)).sum_eq
    have hlen : (category_stats df).length = (groupKeys df).length := by
      unfold category_stats
      rw [hperm.length_eq, List.length_map]
    rw [hsum, hlen, List.map_map]
    have hfun : ((fun st : CatStat => st.percentage) ∘ statFor df (totalAmount df))
        = fun c => round2 (round2 (catTotalRaw df c) / totalAmount df * 100) := rfl
    rw [hfun]
    have hmap1 : (groupKeys df).map
          (fun c => round2 (round2 (catTotalRaw df c) / totalAmount df * 100))
        = (groupKeys df).map
          (fun c => round2 (catTotalRaw df c / totalAmount df * 100)) :=
      List.map_congr_left (fun c hc => by rw [hfix c hc])
    rw [hmap1]
    have herr := sum_round2_err (groupKeys df)
      (fun c => catTotalRaw df c / totalAmount df * 100)
    have hraw : ((groupKeys df).map
        (fun c => catTotalRaw df c / totalAmount df * 100)).sum = 100 := by
      have hmap2 : (groupKeys df).map
            (fun c => catTotalRaw df c / totalAmount df * 100)
          = (groupKeys df).map
            (fun c => catTotalRaw df c * (100 / totalAmount df)) :=
        List.map_congr_left (fun c _ => by ring)
      rw [hmap2, List.sum_map_mul_right,
        sum_catTotalRaw df (groupKeys df) (groupKeys_nodup df)
          (fun r hr => mem_groupKeys.2 (List.mem_map.2 ⟨r, hr, rfl⟩))]
      field_simp
    rw [hraw] at herr
    have hmono : ((groupKeys df).length : ℚ) * (1/200)
        ≤ ((groupKeys df).length : ℚ) * (1/100) := by
      have hn : (0 : ℚ) ≤ ((groupKeys df).length : ℚ) := Nat.cast_nonneg _
      nlinarith
    linarith

/-- C7 (amended) witness: the seed set has positive whole-rupee amounts,
and its percentages are within `[0, 100]` with sum within 0.05 of 100. -/
theorem C7_amended_percentages_witness :
    sample_data ≠ [] ∧
    (∀ r ∈ sample_data, 0 < r.amount) ∧
    ((∀ st ∈ category_stats sample_data,
        0 ≤ st.percentage ∧ st.percentage ≤ 100) ∧
      |((category_stats sample_data).map (·.percentage)).sum - 100|
        ≤ ((category_stats sample_data).length : ℚ) * (1/100)) :=
  ⟨by decide, by decide,
    C7_amended_percentages sample_data (by decide) (by decide)
      (by
        intro r hr
        fin_cases hr
        · exact ⟨15000, by norm_num⟩
        · exact ⟨5000, by norm_num⟩
        · exact ⟨500000, by norm_num⟩
        · exact ⟨20000, by norm_num⟩
        · exact ⟨30000, by norm_num⟩
        · exact ⟨80000, by norm_num⟩
        · exact ⟨7500, by norm_num⟩)⟩

end TrackerModel
